import Mathlib

/-!
Observer and singleton examples: embedding and verified properties.

Shallow embedding of `observer/observer.go` (the weather-station `Subject`
with its slice of observers) and of `singleton/singleton.go` (the
`sync.Once`-guarded `GetInstance`).

Go slices are modelled with their sharing semantics: a slice value is a
header (pointer, length, capacity) into a backing array that lives in a heap,
`append` writes in place when the capacity suffices and allocates a fresh
array otherwise, and a `range` loop iterates over the header it copied when
the loop began while reading the elements from the (possibly mutated)
backing array.
-/

namespace ObserverPattern

/-- Identity of an observer: the pointer carried by the `Observer` interface
value (`obs == observer` compares these). -/
abbrev ObsId := Nat

/-- Backing arrays of `[]Observer` slices, by address. A slot holds `none`
for the nil interface value. -/
abbrev Heap := List (List (Option ObsId))

/-- Slice header of a `[]Observer`. -/
structure Slice where
  ptr : Nat
  len : Nat
  cap : Nat
deriving DecidableEq, Repr

/-- The `Subject` struct. -/
structure Subject where
  observers : Slice
  weather : String
deriving DecidableEq, Repr

/-- Program state: the heap of backing arrays, the subject, and the record of
every `Update(weather)` call made so far (oldest first). -/
structure World where
  heap : Heap
  subject : Subject
  log : List (ObsId × String)
deriving DecidableEq, Repr

/-- What the body of an observer's `Update` may do to the subject. -/
inductive Call where
  | registerObserver (o : ObsId)
  | removeObserver (o : ObsId)
  | setWeather (weather : String)
deriving DecidableEq, Repr

/-- Backing array at an address. -/
def arrayAt (h : Heap) (ptr : Nat) : List (Option ObsId) := h.getD ptr []

/-- Elements of a slice as currently stored in its backing array. -/
def elems (h : Heap) (s : Slice) : List (Option ObsId) := (arrayAt h s.ptr).take s.len

/-- Copy `vs` into an array starting at index `i`. -/
def writeAt (arr : List (Option ObsId)) (i : Nat) (vs : List (Option ObsId)) :
    List (Option ObsId) :=
  arr.take i ++ vs ++ arr.drop (i + vs.length)

/-- Go's built-in `append(s, vs...)`: in place when `len(s) + len(vs)` fits the
capacity of `s`, otherwise into a newly allocated array. How much spare
capacity a new array gets is the runtime's choice, here the parameter
`slack` (old capacity, needed length). -/
def goAppend (slack : Nat → Nat → Nat) (h : Heap) (s : Slice) (vs : List (Option ObsId)) :
    Heap × Slice :=
  if s.len + vs.length ≤ s.cap then
    (h.set s.ptr (writeAt (arrayAt h s.ptr) s.len vs), { s with len := s.len + vs.length })
  else
    (h ++ [elems h s ++ vs ++ List.replicate (slack s.cap (s.len + vs.length)) none],
      ⟨h.length, s.len + vs.length, s.len + vs.length + slack s.cap (s.len + vs.length)⟩)

/-- Growth of the gc runtime for small slices: the capacity doubles. -/
def doubling (cap need : Nat) : Nat := max (2 * cap) need - need

/-- `NewSubject`: `observers` is `make([]Observer, 0)`, `weather` is the zero string. -/
def NewSubject : World :=
  { heap := [[]], subject := { observers := ⟨0, 0, 0⟩, weather := "" }, log := [] }

/-- `RegisterObserver`: `s.observers = append(s.observers, observer)`. -/
def RegisterObserver (slack : Nat → Nat → Nat) (w : World) (observer : ObsId) : World :=
  let r := goAppend slack w.heap w.subject.observers [some observer]
  { w with heap := r.1, subject := { w.subject with observers := r.2 } }

/-- Index of the first element equal to `observer`, scanning from index `i`:
the loop `for i, obs := range s.observers` up to its `break`. -/
def firstIndex (observer : ObsId) : List (Option ObsId) → Nat → Option Nat
  | [], _ => none
  | obs :: rest, i => if obs = some observer then some i else firstIndex observer rest (i + 1)

/-- `RemoveObserver`: at the first index `i` holding `observer`,
`s.observers = append(s.observers[:i], s.observers[i+1:]...)`; nothing when
no element matches. -/
def RemoveObserver (slack : Nat → Nat → Nat) (w : World) (observer : ObsId) : World :=
  let s := w.subject.observers
  match firstIndex observer (elems w.heap s) 0 with
  | none => w
  | some i =>
    let r := goAppend slack w.heap { s with len := i } ((elems w.heap s).drop (i + 1))
    { w with heap := r.1, subject := { w.subject with observers := r.2 } }

/-- Run a loop body over the given indices, stopping at the first failure. -/
def forIdx (body : Nat → World → Option World) : List Nat → World → Option World
  | [], w => some w
  | i :: rest, w => (body i w).bind (forIdx body rest)

/-- Run the calls of an `Update` body in order. -/
def runCalls (exec : Call → World → Option World) : List Call → World → Option World
  | [], w => some w
  | c :: rest, w => (exec c w).bind (runCalls exec rest)

/-- One call on the subject made from inside an `Update`; `notify` is
`NotifyObservers` one call level deeper. -/
def execCall (slack : Nat → Nat → Nat) (notify : World → Option World) :
    Call → World → Option World
  | .registerObserver o, w => some (RegisterObserver slack w o)
  | .removeObserver o, w => some (RemoveObserver slack w o)
  | .setWeather v, w => notify { w with subject := { w.subject with weather := v } }

/-- Loop body of `NotifyObservers` at index `i` of the array the loop ranges
over: `observer.Update(s.weather)`. The call is recorded, then the body of
`Update` runs. Calling `Update` on a nil interface panics (`none`). -/
def deliver (slack : Nat → Nat → Nat) (Update : ObsId → String → List Call)
    (notify : World → Option World) (ptr i : Nat) (w : World) : Option World :=
  match ((arrayAt w.heap ptr)[i]?).join with
  | none => none
  | some o =>
    runCalls (execCall slack notify) (Update o w.subject.weather)
      { w with log := w.log ++ [(o, w.subject.weather)] }

/-- `NotifyObservers`: `for _, observer := range s.observers`. The range
expression is evaluated once, so pointer and length are those of the header
at loop start. `depth` bounds the nesting of calls (a Go stack is finite);
`none` is a crash. -/
def NotifyObservers (slack : Nat → Nat → Nat) (Update : ObsId → String → List Call) :
    Nat → World → Option World
  | 0, _ => none
  | depth + 1, w =>
    forIdx (deliver slack Update (NotifyObservers slack Update depth) w.subject.observers.ptr)
      (List.range w.subject.observers.len) w

/-- `SetWeather`: `s.weather = weather; s.NotifyObservers()`. -/
def SetWeather (slack : Nat → Nat → Nat) (Update : ObsId → String → List Call)
    (depth : Nat) (weather : String) (w : World) : Option World :=
  NotifyObservers slack Update depth { w with subject := { w.subject with weather := weather } }

/-- `ConcreteObserver.Update` only prints: it makes no call on the subject. -/
def ConcreteObserver.Update : ObsId → String → List Call := fun _ _ => []

/-- An observer `r` whose `Update` calls `RemoveObserver(t)` on the subject,
among displays that only print. -/
def removerUpdate (r t : ObsId) : ObsId → String → List Call :=
  fun o _ => if o = r then [Call.removeObserver t] else []

/-- An observer `r` whose `Update` calls `RegisterObserver(n)` on the subject,
among displays that only print. -/
def registrarUpdate (r n : ObsId) : ObsId → String → List Call :=
  fun o _ => if o = r then [Call.registerObserver n] else []

/-- An observer `r` whose `Update`, when passed `v`, calls `SetWeather(v2)` on
the subject, among displays that only print. -/
def republisherUpdate (r : ObsId) (v v2 : String) : ObsId → String → List Call :=
  fun o s => if o = r ∧ s = v then [Call.setWeather v2] else []

/-- Register the observers of a list, in order. -/
def registerAll (slack : Nat → Nat → Nat) (w : World) (xs : List ObsId) : World :=
  xs.foldl (RegisterObserver slack) w


/-- The calls of `Update` made on observer `o`, among the recorded calls `log`. -/
def deliveriesTo (o : ObsId) (log : List (ObsId × String)) : List (ObsId × String) :=
  log.filter (fun d => d.1 = o)

/-- The subject of `w` holds exactly the observers `xs`, in this order, in a
well-formed slice: the header points at an allocated array whose size is the
capacity, and the first `len` slots are the observers. -/
def Holds (w : World) (xs : List ObsId) : Prop :=
  w.subject.observers.ptr < w.heap.length ∧
  (arrayAt w.heap w.subject.observers.ptr).length = w.subject.observers.cap ∧
  w.subject.observers.len = xs.length ∧
  elems w.heap w.subject.observers = xs.map some

/-- Observers whose `Update` bodies are given by a table: an observer listed
in `script` makes the calls listed for it, any other observer only prints. -/
def scriptedUpdate (script : List (ObsId × List Call)) : ObsId → String → List Call :=
  fun o _ => (script.lookup o).getD []

/-- The observers that the calls of an `Update` body register, in call order. -/
def regIds : List Call → List ObsId
  | [] => []
  | Call.registerObserver m :: cs => m :: regIds cs
  | _ :: cs => regIds cs

/-- The observers registered by the `Update` bodies of `os` when each is passed
`v`, in visiting order. -/
def registeredBy (Update : ObsId → String → List Call) (v : String) : List ObsId → List ObsId
  | [] => []
  | o :: os => regIds (Update o v) ++ registeredBy Update v os

/-- Loop invariant of a broadcast over the observers `xs` in the array at `ptr`
while the `Update` bodies only register: the weather is `v`, the array at
`ptr` still starts with `xs`, and the subject holds `xs` followed by the
observers `added` so far. -/
def RegInv (ptr : Nat) (xs : List ObsId) (v : String) (w : World) (added : List ObsId) : Prop :=
  w.subject.weather = v ∧ ptr < w.heap.length ∧
  (∃ spare, arrayAt w.heap ptr = xs.map some ++ spare) ∧
  Holds w (xs ++ added)

/-- Loop invariant of a broadcast that ranges over the first `n` slots of the
array at `ptr` while the stored weather is `v`: the array is allocated, its
first `n` slots hold observers (none is nil), and the subject's own slice is
well formed. -/
def LoopInv (ptr n : Nat) (v : String) (w : World) : Prop :=
  w.subject.weather = v ∧ ptr < w.heap.length ∧
  (∀ i, i < n → ∃ o, (arrayAt w.heap ptr)[i]? = some (some o)) ∧
  ∃ ys, Holds w ys

end ObserverPattern

namespace SingletonPattern

/-- The `Database` struct. -/
structure Database where
  Connection : String
deriving DecidableEq, Repr

/-- Package-level state of `singleton.go`: the allocated `Database` objects by
address, the variable `db` (`none` is the nil pointer), whether `once` has
already run its function, and the lines printed so far. -/
structure Program where
  objects : List Database
  db : Option Nat
  once : Bool
  stdout : List String
deriving DecidableEq, Repr

/-- State at program start: `db` is nil, `once` is unused. -/
def start : Program := { objects := [], db := none, once := false, stdout := [] }

/-- The function literal passed to `once.Do`: prints a line, allocates
`Database` with `Connection: "test"` and stores its address in `db`. -/
def construct (p : Program) : Program :=
  { p with
    stdout := p.stdout ++ ["Triggered only once..."],
    objects := p.objects ++ [⟨"test"⟩],
    db := some p.objects.length }

/-- Method `Do` of `sync.Once`: calls `f` if and only if `Do` is called for the
first time for this `Once`. -/
def onceDo (f : Program → Program) (p : Program) : Program :=
  if p.once then p else { f p with once := true }

/-- `GetInstance`: `once.Do(...)`, then `return db`. -/
def GetInstance (p : Program) : Program × Option Nat :=
  let q := onceDo construct p
  (q, q.db)

/-- Make `n` calls of `GetInstance` in a row, collecting the returned pointers. -/
def calls : Nat → Program → Program × List (Option Nat)
  | 0, p => (p, [])
  | n + 1, p =>
    let r := GetInstance p
    let rest := calls n r.1
    (rest.1, r.2 :: rest.2)

end SingletonPattern

namespace ObserverPattern

/-! ## Heap and slice lemmas -/

theorem arrayAt_set_self (h : Heap) (p : Nat) (a : List (Option ObsId)) (hp : p < h.length) :
    arrayAt (h.set p a) p = a := by
  simp [arrayAt, List.getD_eq_getElem?_getD, hp]

theorem arrayAt_set_ne (h : Heap) (p q : Nat) (a : List (Option ObsId)) (hpq : p ≠ q) :
    arrayAt (h.set p a) q = arrayAt h q := by
  simp [arrayAt, List.getD_eq_getElem?_getD, List.getElem?_set_ne hpq]

theorem arrayAt_push_old (h : Heap) (p : Nat) (a : List (Option ObsId)) (hp : p < h.length) :
    arrayAt (h ++ [a]) p = arrayAt h p := by
  simp [arrayAt, List.getD_eq_getElem?_getD, List.getElem?_append_left hp]

theorem arrayAt_push_new (h : Heap) (a : List (Option ObsId)) :
    arrayAt (h ++ [a]) h.length = a := by
  simp [arrayAt, List.getD_eq_getElem?_getD]

theorem holds_array {w : World} {xs : List ObsId} (hw : Holds w xs) :
    arrayAt w.heap w.subject.observers.ptr =
      xs.map some ++ (arrayAt w.heap w.subject.observers.ptr).drop xs.length := by
  obtain ⟨_, _, hlen, hel⟩ := hw
  unfold elems at hel
  rw [hlen] at hel
  rw [← hel, List.take_append_drop]

theorem holds_NewSubject : Holds NewSubject [] := by
  simp [Holds, NewSubject, arrayAt, elems]

theorem holds_weather (w : World) (xs : List ObsId) (v : String) :
    Holds { w with subject := { w.subject with weather := v } } xs ↔ Holds w xs := Iff.rfl

theorem holds_of_array {w : World} {xs : List ObsId} (spare : List (Option ObsId))
    (hp : w.subject.observers.ptr < w.heap.length)
    (harr : arrayAt w.heap w.subject.observers.ptr = xs.map some ++ spare)
    (hcap : w.subject.observers.cap = xs.length + spare.length)
    (hlen : w.subject.observers.len = xs.length) : Holds w xs := by
  refine ⟨hp, ?_, hlen, ?_⟩
  · rw [harr, hcap]; simp
  · unfold elems
    rw [harr, hlen]
    simp

theorem holds_spare {w : World} {xs : List ObsId} (hw : Holds w xs) :
    ∃ spare, arrayAt w.heap w.subject.observers.ptr = xs.map some ++ spare ∧
      w.subject.observers.cap = xs.length + spare.length := by
  refine ⟨(arrayAt w.heap w.subject.observers.ptr).drop xs.length, holds_array hw, ?_⟩
  have h1 := congrArg List.length (holds_array hw)
  rw [hw.2.1] at h1
  simpa using h1

theorem writeAt_append (a vs spare : List (Option ObsId)) :
    writeAt (a ++ spare) a.length vs = a ++ vs ++ spare.drop vs.length := by
  simp [writeAt, List.drop_append_eq_append_drop, List.take_append_eq_append_take]

/-- Registering on a subject holding `xs` yields one holding `xs ++ [o]`. -/
theorem holds_register (slack : Nat → Nat → Nat) {w : World} {xs : List ObsId} (o : ObsId)
    (hw : Holds w xs) : Holds (RegisterObserver slack w o) (xs ++ [o]) := by
  obtain ⟨spare, harr, hcap⟩ := holds_spare hw
  obtain ⟨hp, _, hlen, hel⟩ := hw
  unfold RegisterObserver goAppend
  by_cases hfit : w.subject.observers.len + [some o].length ≤ w.subject.observers.cap
  · rw [if_pos hfit]
    simp only [List.length_singleton] at hfit
    refine holds_of_array (spare.drop 1) (by simpa using hp) ?_ ?_ (by simp [hlen])
    · simp only [arrayAt_set_self _ _ _ hp]
      rw [harr, hlen]
      have := writeAt_append (xs.map some) [some o] spare
      simp only [List.length_map, List.length_singleton] at this
      rw [this]
      simp
    · simp
      omega
  · rw [if_neg hfit]
    refine holds_of_array (List.replicate (slack w.subject.observers.cap
      (w.subject.observers.len + 1)) none) (by simp) ?_ ?_ (by simp [hlen])
    · simp only [arrayAt_push_new, hel]
      simp
    · simp [hlen]

theorem firstIndex_found (t : ObsId) (a : List ObsId) (rest : List (Option ObsId)) (k : Nat)
    (ht : t ∉ a) : firstIndex t (a.map some ++ some t :: rest) k = some (k + a.length) := by
  induction a generalizing k with
  | nil => simp [firstIndex]
  | cons x a ih =>
    have hx : x ≠ t := fun h => ht (by simp [h])
    have ha : t ∉ a := fun h => ht (by simp [h])
    have hstep : firstIndex t ((x :: a).map some ++ some t :: rest) k =
        firstIndex t (a.map some ++ some t :: rest) (k + 1) := by
      show (if some x = some t then some k
        else firstIndex t (a.map some ++ some t :: rest) (k + 1)) = _
      rw [if_neg (by simpa using hx)]
    rw [hstep, ih (k + 1) ha]
    simp only [List.length_cons, Option.some.injEq]
    omega

theorem firstIndex_none (t : ObsId) (l : List (Option ObsId)) (k : Nat)
    (ht : some t ∉ l) : firstIndex t l k = none := by
  induction l generalizing k with
  | nil => rfl
  | cons x l ih =>
    have hx : x ≠ some t := fun h => ht (by simp [h])
    have hl : some t ∉ l := fun h => ht (by simp [h])
    simp [firstIndex, hx, ih (k + 1) hl]

theorem drop_length_cons (t : ObsId) (b : List ObsId) :
    (t :: b).drop b.length = [b.getLastD t] := by
  induction b generalizing t with
  | nil => rfl
  | cons x b ih =>
    simp only [List.length_cons, List.drop_succ_cons, List.getLastD_cons]
    exact ih x

/-- Removing `t` from a subject holding `a ++ t :: b` (first occurrence of `t`):
the exact resulting state. The tail `b` is copied one slot down in the same
backing array; the slot that held the last observer keeps its value. -/
theorem remove_eq (slack : Nat → Nat → Nat) {w : World} {a b : List ObsId} {t : ObsId}
    (hw : Holds w (a ++ t :: b)) (ht : t ∉ a) :
    RemoveObserver slack w t =
      { w with
        heap := w.heap.set w.subject.observers.ptr
          ((a ++ b ++ [b.getLastD t]).map some ++
            (arrayAt w.heap w.subject.observers.ptr).drop (a.length + b.length + 1)),
        subject := { w.subject with
          observers := { w.subject.observers with len := a.length + b.length } } } := by
  obtain ⟨spare, harr, hcap⟩ := holds_spare hw
  obtain ⟨hp, _, hlen, hel⟩ := hw
  have hfi : firstIndex t (elems w.heap w.subject.observers) 0 = some a.length := by
    rw [hel]
    simpa using firstIndex_found t a (b.map some) 0 ht
  unfold RemoveObserver
  simp only [hfi]
  have hvs : (elems w.heap w.subject.observers).drop (a.length + 1) = b.map some := by
    rw [hel]
    simp [List.drop_append_eq_append_drop]
  simp only [hvs]
  have hfit : a.length + (b.map some).length ≤ w.subject.observers.cap := by
    rw [hcap]; simp; omega
  unfold goAppend
  simp only [if_pos hfit]
  have hwr : writeAt (arrayAt w.heap w.subject.observers.ptr) a.length (b.map some) =
      (a ++ b ++ [b.getLastD t]).map some ++
        (arrayAt w.heap w.subject.observers.ptr).drop (a.length + b.length + 1) := by
    rw [harr]
    have h1 : (a ++ t :: b).map some ++ spare =
        a.map some ++ ((t :: b).map some ++ spare) := by simp
    rw [h1]
    have h2 := writeAt_append (a.map some) (b.map some) ((t :: b).map some ++ spare)
    simp only [List.length_map] at h2
    rw [h2]
    have h3 : ((t :: b).map some ++ spare).drop b.length =
        [some (b.getLastD t)] ++ spare := by
      rw [List.drop_append_eq_append_drop, ← List.map_drop, drop_length_cons]
      simp
    have h4 : (a.map some ++ ((t :: b).map some ++ spare)).drop (a.length + b.length + 1) =
        spare := by
      rw [← List.append_assoc, ← List.map_append]
      have : a.length + b.length + 1 = ((a ++ t :: b).map some).length := by simp; omega
      rw [this, List.drop_left]
    rw [h3, h4]
    simp
  simp only [hwr, List.length_map]

/-! ## The broadcast loop -/

theorem forIdx_append (body : Nat → World → Option World) (is js : List Nat) (w : World) :
    forIdx body (is ++ js) w = (forIdx body is w).bind (forIdx body js) := by
  induction is generalizing w with
  | nil => rfl
  | cons i is ih =>
    simp only [List.cons_append, forIdx]
    cases body i w with
    | none => rfl
    | some w1 => simpa using ih w1

theorem deliver_at (slack : Nat → Nat → Nat) (Update : ObsId → String → List Call)
    (notify : World → Option World) (ptr i : Nat) (w : World) (o : ObsId)
    (h : (arrayAt w.heap ptr)[i]? = some (some o)) :
    deliver slack Update notify ptr i w =
      runCalls (execCall slack notify) (Update o w.subject.weather)
        { w with log := w.log ++ [(o, w.subject.weather)] } := by
  simp [deliver, h]

theorem forIdx_passive_aux (slack : Nat → Nat → Nat) (Update : ObsId → String → List Call)
    (notify : World → Option World) (ptr : Nat) (h : Heap) (v : String)
    (is : List Nat) (os : List ObsId)
    (hread : List.Forall₂ (fun i o => (arrayAt h ptr)[i]? = some (some o)) is os)
    (hp : ∀ o ∈ os, Update o v = []) (w : World) (hh : w.heap = h)
    (hv : w.subject.weather = v) :
    forIdx (deliver slack Update notify ptr) is w =
      some { w with log := w.log ++ os.map (fun o => (o, v)) } := by
  induction hread generalizing w with
  | nil => simp [forIdx]
  | @cons i o is os hio _ ih =>
    have hpo : Update o v = [] := hp o (by simp)
    have hrest : ∀ o1 ∈ os, Update o1 v = [] := fun o1 h1 => hp o1 (by simp [h1])
    rw [← hh] at hio
    simp only [forIdx, deliver_at slack Update notify ptr i w o hio, hv, hpo, runCalls,
      Option.some_bind]
    rw [ih hrest ⟨w.heap, w.subject, w.log ++ [(o, v)]⟩ hh hv]
    simp

theorem forall2_range (pre : List (Option ObsId)) (os : List ObsId) (post : List (Option ObsId)) :
    List.Forall₂ (fun i o => (pre ++ os.map some ++ post)[i]? = some (some o))
      (List.range' pre.length os.length) os := by
  induction os generalizing pre with
  | nil => simp
  | cons o os ih =>
    simp only [List.length_cons, List.range'_succ, List.forall₂_cons]
    constructor
    · rw [List.append_assoc, List.getElem?_append_right (Nat.le_refl _)]
      simp
    · have h := ih (pre ++ [some o])
      simpa using h

/-- A stretch of the loop over observers whose `Update` makes no call: each
is delivered the current weather, in array order, and nothing else changes. -/
theorem forIdx_passive (slack : Nat → Nat → Nat) (Update : ObsId → String → List Call)
    (notify : World → Option World) (ptr : Nat) (w : World)
    (pre : List (Option ObsId)) (os : List ObsId) (post : List (Option ObsId))
    (harr : arrayAt w.heap ptr = pre ++ os.map some ++ post)
    (hp : ∀ o ∈ os, Update o w.subject.weather = []) :
    forIdx (deliver slack Update notify ptr) (List.range' pre.length os.length) w =
      some { w with log := w.log ++ os.map (fun o => (o, w.subject.weather)) } := by
  apply forIdx_passive_aux slack Update notify ptr w.heap w.subject.weather _ _ _ hp w rfl rfl
  rw [harr]
  exact forall2_range pre os post

/-- A whole broadcast over observers whose `Update` makes no call. -/
theorem notify_passive (slack : Nat → Nat → Nat) (Update : ObsId → String → List Call)
    (depth : Nat) {w : World} {xs : List ObsId} (hw : Holds w xs)
    (hp : ∀ o ∈ xs, Update o w.subject.weather = []) :
    NotifyObservers slack Update (depth + 1) w =
      some { w with log := w.log ++ xs.map (fun o => (o, w.subject.weather)) } := by
  obtain ⟨spare, harr, _⟩ := holds_spare hw
  have h := forIdx_passive slack Update (NotifyObservers slack Update depth)
    w.subject.observers.ptr w [] xs spare (by simpa using harr) hp
  simp only [NotifyObservers, List.range_eq_range', hw.2.2.1]
  simpa using h

/-! ## Registration, removal and delivery counts -/

theorem holds_registerAll (slack : Nat → Nat → Nat) {w : World} {xs : List ObsId}
    (ys : List ObsId) (hw : Holds w xs) : Holds (registerAll slack w ys) (xs ++ ys) := by
  induction ys generalizing w xs with
  | nil => simpa [registerAll] using hw
  | cons y ys ih =>
    have h := ih (holds_register slack y hw)
    simpa [registerAll] using h

theorem registerAll_log (slack : Nat → Nat → Nat) (w : World) (ys : List ObsId) :
    (registerAll slack w ys).log = w.log ∧
      (registerAll slack w ys).subject.weather = w.subject.weather := by
  induction ys generalizing w with
  | nil => exact ⟨rfl, rfl⟩
  | cons y ys ih => exact ih (RegisterObserver slack w y)

/-- Removing a registered observer leaves the others, in order. -/
theorem holds_remove (slack : Nat → Nat → Nat) {w : World} {xs : List ObsId} {c : ObsId}
    (hw : Holds w xs) (hc : c ∈ xs) : Holds (RemoveObserver slack w c) (xs.erase c) := by
  obtain ⟨a, b, hca, hxs, her⟩ := List.exists_erase_eq hc
  rw [her]
  rw [hxs] at hw
  obtain ⟨spare, harr, hcap⟩ := holds_spare hw
  rw [remove_eq slack hw hca]
  refine holds_of_array (some (b.getLastD c) :: spare.drop 0) (by simpa using hw.1) ?_ ?_ ?_
  · simp only [arrayAt_set_self _ _ _ hw.1]
    rw [harr]
    have : a.length + b.length + 1 = ((a ++ c :: b).map some).length := by simp; omega
    rw [this, List.drop_left]
    simp
  · simp only [hcap]
    simp
    omega
  · simp

theorem remove_log (slack : Nat → Nat → Nat) (w : World) (c : ObsId) :
    (RemoveObserver slack w c).log = w.log ∧
      (RemoveObserver slack w c).subject.weather = w.subject.weather := by
  unfold RemoveObserver
  dsimp only
  cases firstIndex c (elems w.heap w.subject.observers) 0 <;> exact ⟨rfl, rfl⟩

theorem deliveriesTo_map (o : ObsId) (v : String) (xs : List ObsId) :
    deliveriesTo o (xs.map (fun x => (x, v))) = List.replicate (xs.count o) (o, v) := by
  induction xs with
  | nil => rfl
  | cons x xs ih =>
    unfold deliveriesTo at ih ⊢
    by_cases hx : x = o
    · subst hx
      simp [List.filter_cons, ih, List.replicate_succ]
    · have hx2 : ¬ (x == o) = true := by simpa using hx
      simp [List.filter_cons, ih, hx, List.count_cons, hx2]

theorem deliveriesTo_map_once (o : ObsId) (v : String) (xs : List ObsId) (hd : xs.Nodup)
    (ho : o ∈ xs) : deliveriesTo o (xs.map (fun x => (x, v))) = [(o, v)] := by
  rw [deliveriesTo_map, List.count_eq_one_of_mem hd ho]
  rfl

theorem deliveriesTo_map_none (o : ObsId) (v : String) (xs : List ObsId) (ho : o ∉ xs) :
    deliveriesTo o (xs.map (fun x => (x, v))) = [] := by
  rw [deliveriesTo_map, List.count_eq_zero_of_not_mem ho]
  rfl

theorem remove_absent (slack : Nat → Nat → Nat) (w : World) (o : ObsId)
    (ho : some o ∉ elems w.heap w.subject.observers) : RemoveObserver slack w o = w := by
  unfold RemoveObserver
  simp only [firstIndex_none o _ 0 ho]

/-! ## Broadcasts whose observers register and remove -/

theorem writeAt_length (arr vs : List (Option ObsId)) (k : Nat)
    (hk : k + vs.length ≤ arr.length) : (writeAt arr k vs).length = arr.length := by
  simp [writeAt]
  omega

theorem writeAt_getElem (arr vs : List (Option ObsId)) (k i : Nat) (x : Option ObsId)
    (hk : k + vs.length ≤ arr.length) (hx : (writeAt arr k vs)[i]? = some x) :
    x ∈ vs ∨ arr[i]? = some x := by
  have hlen : (arr.take k).length = k := by simp; omega
  unfold writeAt at hx
  rw [List.append_assoc] at hx
  by_cases h1 : i < k
  · rw [List.getElem?_append_left (by omega)] at hx
    right
    rw [List.getElem?_take] at hx
    simpa [h1] using hx
  · rw [List.getElem?_append_right (by omega), hlen] at hx
    by_cases h2 : i - k < vs.length
    · rw [List.getElem?_append_left h2] at hx
      left
      exact List.getElem?_mem hx
    · rw [List.getElem?_append_right (by omega), List.getElem?_drop] at hx
      right
      have : k + vs.length + (i - k - vs.length) = i := by omega
      rwa [this] at hx

theorem goAppend_slots (slack : Nat → Nat → Nat) (h : Heap) (s : Slice)
    (vs : List (Option ObsId)) (ptr n : Nat) (hptr : ptr < h.length)
    (hcap : (arrayAt h s.ptr).length = s.cap) (hvs : ∀ x ∈ vs, ∃ o, x = some o)
    (hn : ∀ i, i < n → ∃ o, (arrayAt h ptr)[i]? = some (some o)) :
    ptr < (goAppend slack h s vs).1.length ∧
      ∀ i, i < n → ∃ o, (arrayAt (goAppend slack h s vs).1 ptr)[i]? = some (some o) := by
  unfold goAppend
  by_cases hfit : s.len + vs.length ≤ s.cap
  · rw [if_pos hfit]
    refine ⟨by simpa using hptr, ?_⟩
    intro i hi
    by_cases hps : s.ptr = ptr
    · subst hps
      simp only [arrayAt_set_self _ _ _ hptr]
      obtain ⟨o, ho⟩ := hn i hi
      have hil : i < (arrayAt h s.ptr).length := by
        by_contra hc
        rw [List.getElem?_eq_none (by omega)] at ho
        exact Option.noConfusion ho
      have hwl := writeAt_length (arrayAt h s.ptr) vs s.len (by omega)
      have hsome : ∃ x, (writeAt (arrayAt h s.ptr) s.len vs)[i]? = some x :=
        ⟨_, List.getElem?_eq_getElem (by omega)⟩
      obtain ⟨x, hx⟩ := hsome
      rcases writeAt_getElem _ _ _ _ _ (by omega) hx with hmem | hold
      · obtain ⟨o1, ho1⟩ := hvs x hmem
        exact ⟨o1, by rw [hx, ho1]⟩
      · rw [ho] at hold
        exact ⟨o, by rw [hx]; exact hold.symm⟩
    · simp only [arrayAt_set_ne _ _ _ _ hps]
      exact hn i hi
  · rw [if_neg hfit]
    refine ⟨by simp; omega, ?_⟩
    intro i hi
    simp only [arrayAt_push_old _ _ _ hptr]
    exact hn i hi

theorem loopInv_register (slack : Nat → Nat → Nat) (ptr n : Nat) (v : String) (w : World)
    (o : ObsId) (hi : LoopInv ptr n v w) : LoopInv ptr n v (RegisterObserver slack w o) := by
  obtain ⟨hv, hptr, hn, ys, hys⟩ := hi
  have h := goAppend_slots slack w.heap w.subject.observers [some o] ptr n hptr hys.2.1
    (by simp) hn
  exact ⟨hv, h.1, h.2, ys ++ [o], holds_register slack o hys⟩

theorem loopInv_remove (slack : Nat → Nat → Nat) (ptr n : Nat) (v : String) (w : World)
    (o : ObsId) (hi : LoopInv ptr n v w) : LoopInv ptr n v (RemoveObserver slack w o) := by
  by_cases ho : some o ∈ elems w.heap w.subject.observers
  · obtain ⟨hv, hptr, hn, ys, hys⟩ := hi
    have hoy : o ∈ ys := by
      rw [hys.2.2.2] at ho
      simpa using ho
    refine ⟨by rw [(remove_log slack w o).2, hv], ?_, ?_, ys.erase o, holds_remove slack hys hoy⟩
    all_goals
      obtain ⟨a, b, hoa, hab, _⟩ := List.exists_erase_eq hoy
      have hfi : firstIndex o (elems w.heap w.subject.observers) 0 = some a.length := by
        rw [hys.2.2.2, hab]
        simpa using firstIndex_found o a (b.map some) 0 hoa
      have h := goAppend_slots slack w.heap { w.subject.observers with len := a.length }
        ((elems w.heap w.subject.observers).drop (a.length + 1)) ptr n hptr hys.2.1
        (by
          intro x hx
          have hx2 := List.mem_of_mem_drop hx
          rw [hys.2.2.2] at hx2
          obtain ⟨o1, _, ho1⟩ := List.mem_map.1 hx2
          exact ⟨o1, ho1.symm⟩) hn
      unfold RemoveObserver
      simp only [hfi]
    · exact h.1
    · exact h.2
  · rw [remove_absent slack w o ho]
    exact hi

theorem runCalls_loopInv (slack : Nat → Nat → Nat) (notify : World → Option World)
    (ptr n : Nat) (v : String) (cs : List Call)
    (hcs : ∀ c ∈ cs, ∀ x, c ≠ Call.setWeather x) (w : World) (hi : LoopInv ptr n v w) :
    ∃ w1, runCalls (execCall slack notify) cs w = some w1 ∧ LoopInv ptr n v w1 := by
  induction cs generalizing w with
  | nil => exact ⟨w, rfl, hi⟩
  | cons c cs ih =>
    have hrest : ∀ c1 ∈ cs, ∀ x, c1 ≠ Call.setWeather x := fun c1 h1 => hcs c1 (by simp [h1])
    cases c with
    | registerObserver o =>
      simpa [runCalls, execCall] using ih hrest _ (loopInv_register slack ptr n v w o hi)
    | removeObserver o =>
      simpa [runCalls, execCall] using ih hrest _ (loopInv_remove slack ptr n v w o hi)
    | setWeather x => exact absurd rfl (hcs _ (by simp) x)

theorem forIdx_loopInv (slack : Nat → Nat → Nat) (Update : ObsId → String → List Call)
    (notify : World → Option World) (ptr n : Nat) (v : String)
    (hU : ∀ o s, ∀ c ∈ Update o s, ∀ x, c ≠ Call.setWeather x)
    (is : List Nat) (his : ∀ i ∈ is, i < n) (w : World) (hi : LoopInv ptr n v w) :
    ∃ w1, forIdx (deliver slack Update notify ptr) is w = some w1 ∧ LoopInv ptr n v w1 := by
  induction is generalizing w with
  | nil => exact ⟨w, rfl, hi⟩
  | cons i is ih =>
    obtain ⟨o, ho⟩ := hi.2.2.1 i (his i (by simp))
    have hlog : LoopInv ptr n v { w with log := w.log ++ [(o, w.subject.weather)] } := hi
    obtain ⟨w1, hw1, hi1⟩ := runCalls_loopInv slack notify ptr n v
      (Update o w.subject.weather) (hU o _) _ hlog
    obtain ⟨w2, hw2, hi2⟩ := ih (fun j hj => his j (by simp [hj])) w1 hi1
    refine ⟨w2, ?_, hi2⟩
    simp only [forIdx, deliver_at slack Update notify ptr i w o ho, hw1, Option.some_bind, hw2]

/-! ## A broadcast with one active observer -/

/-- A broadcast over `pre ++ r :: rest` where the observers of `pre` make no
call: they are delivered in order, then `r` is delivered and the body of its
`Update` runs, then the loop goes on over the remaining `rest.length` indices
of the array it started on. -/
theorem notify_split (slack : Nat → Nat → Nat) (Update : ObsId → String → List Call)
    (depth : Nat) {w : World} {pre rest : List ObsId} {r : ObsId}
    (hw : Holds w (pre ++ r :: rest)) (hp : ∀ o ∈ pre, Update o w.subject.weather = []) :
    NotifyObservers slack Update (depth + 1) w =
      (runCalls (execCall slack (NotifyObservers slack Update depth))
        (Update r w.subject.weather)
        { w with log := w.log ++ pre.map (fun o => (o, w.subject.weather)) ++
          [(r, w.subject.weather)] }).bind
        (forIdx (deliver slack Update (NotifyObservers slack Update depth)
          w.subject.observers.ptr) (List.range' (pre.length + 1) rest.length)) := by
  obtain ⟨spare, harr, _⟩ := holds_spare hw
  have hrange : List.range w.subject.observers.len =
      List.range' 0 pre.length ++ pre.length :: List.range' (pre.length + 1) rest.length := by
    rw [hw.2.2.1, List.range_eq_range']
    have h1 : (pre ++ r :: rest).length = (rest.length + 1) + pre.length := by
      simp only [List.length_append, List.length_cons]; omega
    rw [h1, ← List.range'_append_1 0 pre.length (rest.length + 1), Nat.zero_add,
      List.range'_succ]
  have hA := forIdx_passive slack Update (NotifyObservers slack Update depth)
    w.subject.observers.ptr w [] pre ((r :: rest).map some ++ spare)
    (by rw [harr]; simp) hp
  simp only [List.length_nil] at hA
  have hr : (arrayAt w.heap w.subject.observers.ptr)[pre.length]? = some (some r) := by
    rw [harr, List.map_append, List.append_assoc,
      List.getElem?_append_right (by simp)]
    simp
  simp only [NotifyObservers, hrange, forIdx_append, hA, Option.some_bind, forIdx]
  rw [deliver_at slack Update _ _ _
    ⟨w.heap, w.subject, w.log ++ pre.map (fun o => (o, w.subject.weather))⟩ r hr]

theorem getLastD_drop_mem (post : List ObsId) (r o : ObsId)
    (ho : o ∈ (post ++ [post.getLastD r]).drop 1) : o ∈ post := by
  cases post with
  | nil => simp at ho
  | cons x p =>
    simp only [List.cons_append, List.drop_succ_cons, List.drop_zero, List.mem_append,
      List.mem_singleton] at ho
    rcases ho with h | h
    · exact List.mem_cons_of_mem _ h
    · rw [h, List.getLastD_cons]
      exact List.getLastD_mem_cons p x

/-- A broadcast over `pre ++ r :: rest` in which `Update` of `r` removes the
observer `t` (first found at index `a.length`, not before `r`) and every
other visited observer makes no call. After the removal the loop reads the
shifted array `a ++ b ++ [last]`, of which `os` is the part behind the index
of `r`. -/
theorem notify_remover (slack : Nat → Nat → Nat) (Update : ObsId → String → List Call)
    (depth : Nat) {w : World} {pre rest a b os : List ObsId} {r t x : ObsId}
    (hw : Holds w (pre ++ r :: rest)) (hsplit : pre ++ r :: rest = a ++ t :: b)
    (hta : t ∉ a) (hur : Update r w.subject.weather = [Call.removeObserver t])
    (hpre : ∀ o ∈ pre, Update o w.subject.weather = [])
    (hos : a ++ b ++ [b.getLastD t] = pre ++ x :: os)
    (hpos : ∀ o ∈ os, Update o w.subject.weather = []) :
    ∃ w1, NotifyObservers slack Update (depth + 1) w = some w1 ∧
      w1.log = w.log ++ (pre ++ r :: os).map (fun o => (o, w.subject.weather)) ∧
      Holds w1 (a ++ b) ∧ w1.subject.weather = w.subject.weather := by
  have hlen : os.length = rest.length := by
    have h1 := congrArg List.length hsplit
    have h2 := congrArg List.length hos
    simp only [List.length_append, List.length_cons, List.length_nil] at h1 h2
    omega
  have hw2 : Holds w (a ++ t :: b) := hsplit ▸ hw
  have hwa : Holds { w with log := w.log ++ pre.map (fun o => (o, w.subject.weather)) ++
      [(r, w.subject.weather)] } (a ++ t :: b) := hw2
  have hrm := remove_eq slack hwa hta
  have hholds := holds_remove slack hwa (c := t) (by simp)
  rw [List.erase_append_right _ hta, List.erase_cons_head] at hholds
  rw [notify_split slack Update depth hw hpre, hur]
  simp only [runCalls, execCall, Option.some_bind]
  rw [hrm] at hholds ⊢
  rw [← hlen]
  have hP := forIdx_passive slack Update (NotifyObservers slack Update depth)
    w.subject.observers.ptr
    { w with
      heap := w.heap.set w.subject.observers.ptr
        ((a ++ b ++ [b.getLastD t]).map some ++
          (arrayAt w.heap w.subject.observers.ptr).drop (a.length + b.length + 1)),
      subject := { w.subject with
        observers := { w.subject.observers with len := a.length + b.length } },
      log := w.log ++ pre.map (fun o => (o, w.subject.weather)) ++ [(r, w.subject.weather)] }
    ((pre ++ [x]).map some) os
    ((arrayAt w.heap w.subject.observers.ptr).drop (a.length + b.length + 1))
    (by
      simp only [arrayAt_set_self _ _ _ hw.1]
      rw [hos]
      simp) hpos
  simp only [List.length_map, List.length_append, List.length_singleton] at hP
  refine ⟨_, hP, ?_, hholds, rfl⟩
  simp

/-- Registering leaves the slots of the former observers in the array the
subject pointed at before the call. -/
theorem register_array_prefix (slack : Nat → Nat → Nat) {w : World} {xs : List ObsId}
    (o : ObsId) (hw : Holds w xs) :
    ∃ spare, arrayAt (RegisterObserver slack w o).heap w.subject.observers.ptr =
      xs.map some ++ spare := by
  obtain ⟨spare, harr, hcap⟩ := holds_spare hw
  unfold RegisterObserver goAppend
  by_cases hfit : w.subject.observers.len + [some o].length ≤ w.subject.observers.cap
  · rw [if_pos hfit]
    refine ⟨some o :: spare.drop 1, ?_⟩
    simp only [arrayAt_set_self _ _ _ hw.1]
    rw [harr, hw.2.2.1]
    have := writeAt_append (xs.map some) [some o] spare
    simp only [List.length_map, List.length_singleton] at this
    rw [this]
    simp
  · rw [if_neg hfit]
    exact ⟨spare, by simp only [arrayAt_push_old _ _ _ hw.1]; exact harr⟩

/-- A broadcast over `pre ++ r :: rest` in which `Update` of `r` registers
`n` and every other visited observer makes no call: the loop still delivers
to exactly the observers it started with, and `n` is appended. -/
theorem notify_registrar (slack : Nat → Nat → Nat) (Update : ObsId → String → List Call)
    (depth : Nat) {w : World} {pre rest : List ObsId} {r : ObsId} (n : ObsId)
    (hw : Holds w (pre ++ r :: rest))
    (hur : Update r w.subject.weather = [Call.registerObserver n])
    (hp : ∀ o ∈ pre ++ rest, Update o w.subject.weather = []) :
    ∃ w1, NotifyObservers slack Update (depth + 1) w = some w1 ∧
      w1.log = w.log ++ (pre ++ r :: rest).map (fun o => (o, w.subject.weather)) ∧
      Holds w1 (pre ++ r :: rest ++ [n]) ∧ w1.subject.weather = w.subject.weather := by
  have hwa : Holds { w with log := w.log ++ pre.map (fun o => (o, w.subject.weather)) ++
      [(r, w.subject.weather)] } (pre ++ r :: rest) := hw
  obtain ⟨spare, hpre⟩ := register_array_prefix slack n hwa
  have hholds := holds_register slack n hwa
  rw [notify_split slack Update depth hw (fun o ho => hp o (List.mem_append_left _ ho)), hur]
  simp only [runCalls, execCall, Option.some_bind]
  have hP := forIdx_passive slack Update (NotifyObservers slack Update depth)
    w.subject.observers.ptr
    (RegisterObserver slack ⟨w.heap, w.subject,
      w.log ++ pre.map (fun o => (o, w.subject.weather)) ++ [(r, w.subject.weather)]⟩ n)
    ((pre ++ [r]).map some) rest spare
    (by rw [hpre]; simp) (fun o ho => hp o (List.mem_append_right _ ho))
  simp only [List.length_map, List.length_append, List.length_singleton] at hP
  refine ⟨_, hP, ?_, by simpa using hholds, rfl⟩
  show w.log ++ pre.map (fun o => (o, w.subject.weather)) ++ [(r, w.subject.weather)] ++
    rest.map (fun o => (o, w.subject.weather)) = _
  simp

/-! ## Broadcasts whose observers only register -/

theorem register_other_array (slack : Nat → Nat → Nat) (w : World) (o : ObsId) (ptr : Nat)
    (hptr : ptr < w.heap.length) (hne : w.subject.observers.ptr ≠ ptr) :
    arrayAt (RegisterObserver slack w o).heap ptr = arrayAt w.heap ptr := by
  unfold RegisterObserver goAppend
  by_cases hfit : w.subject.observers.len + [some o].length ≤ w.subject.observers.cap
  · rw [if_pos hfit]
    exact arrayAt_set_ne _ _ _ _ hne
  · rw [if_neg hfit]
    exact arrayAt_push_old _ _ _ hptr

theorem register_heap_length (slack : Nat → Nat → Nat) (w : World) (o : ObsId) (ptr : Nat)
    (hptr : ptr < w.heap.length) : ptr < (RegisterObserver slack w o).heap.length := by
  unfold RegisterObserver goAppend
  by_cases hfit : w.subject.observers.len + [some o].length ≤ w.subject.observers.cap
  · rw [if_pos hfit]
    simpa using hptr
  · rw [if_neg hfit]
    simp only [List.length_append, List.length_singleton]
    omega

theorem regInv_register (slack : Nat → Nat → Nat) (ptr : Nat) (xs : List ObsId) (v : String)
    (w : World) (added : List ObsId) (o : ObsId) (hi : RegInv ptr xs v w added) :
    RegInv ptr xs v (RegisterObserver slack w o) (added ++ [o]) := by
  obtain ⟨hv, hptr, ⟨sp, hsp⟩, hH⟩ := hi
  refine ⟨hv, register_heap_length slack w o ptr hptr, ?_, ?_⟩
  · by_cases hS : w.subject.observers.ptr = ptr
    · obtain ⟨spare, hspare⟩ := register_array_prefix slack o hH
      rw [hS] at hspare
      exact ⟨added.map some ++ spare, by rw [hspare]; simp⟩
    · exact ⟨sp, by rw [register_other_array slack w o ptr hptr hS]; exact hsp⟩
  · have h := holds_register slack o hH
    rwa [List.append_assoc] at h

theorem runCalls_regInv (slack : Nat → Nat → Nat) (notify : World → Option World)
    (ptr : Nat) (xs : List ObsId) (v : String) (cs : List Call)
    (hcs : ∀ c ∈ cs, ∃ m, c = Call.registerObserver m) (w : World) (added : List ObsId)
    (hi : RegInv ptr xs v w added) :
    ∃ w1, runCalls (execCall slack notify) cs w = some w1 ∧
      RegInv ptr xs v w1 (added ++ regIds cs) ∧ w1.log = w.log := by
  induction cs generalizing w added with
  | nil => exact ⟨w, rfl, by simpa [regIds] using hi, rfl⟩
  | cons c cs ih =>
    obtain ⟨m, rfl⟩ := hcs c (by simp)
    obtain ⟨w1, h1, hi1, hl1⟩ := ih (fun c1 h1 => hcs c1 (by simp [h1]))
      (RegisterObserver slack w m) (added ++ [m]) (regInv_register slack ptr xs v w added m hi)
    refine ⟨w1, ?_, ?_, hl1⟩
    · simpa [runCalls, execCall] using h1
    · simpa [regIds] using hi1

theorem forIdx_regInv (slack : Nat → Nat → Nat) (Update : ObsId → String → List Call)
    (notify : World → Option World) (ptr : Nat) (xs : List ObsId) (v : String)
    (os pre : List ObsId) (hxs : xs = pre ++ os)
    (hU : ∀ o ∈ os, ∀ c ∈ Update o v, ∃ m, c = Call.registerObserver m)
    (w : World) (added : List ObsId) (hi : RegInv ptr xs v w added) :
    ∃ w1, forIdx (deliver slack Update notify ptr) (List.range' pre.length os.length) w =
        some w1 ∧
      RegInv ptr xs v w1 (added ++ registeredBy Update v os) ∧
      w1.log = w.log ++ os.map (fun o => (o, v)) := by
  induction os generalizing pre w added with
  | nil => exact ⟨w, rfl, by simpa [registeredBy] using hi, by simp⟩
  | cons o os ih =>
    obtain ⟨sp, hsp⟩ := hi.2.2.1
    have hread : (arrayAt w.heap ptr)[pre.length]? = some (some o) := by
      rw [hsp, hxs, List.map_append, List.append_assoc,
        List.getElem?_append_right (by simp)]
      simp
    have hlog : RegInv ptr xs v ⟨w.heap, w.subject, w.log ++ [(o, v)]⟩ added := hi
    obtain ⟨w1, h1, hi1, hl1⟩ := runCalls_regInv slack notify ptr xs v (Update o v)
      (hU o (by simp)) _ added hlog
    obtain ⟨w2, h2, hi2, hl2⟩ := ih (pre ++ [o]) (by rw [hxs]; simp)
      (fun o1 ho1 => hU o1 (by simp [ho1])) w1 (added ++ regIds (Update o v)) hi1
    refine ⟨w2, ?_, ?_, ?_⟩
    · simp only [List.length_cons, List.range'_succ, forIdx,
        deliver_at slack Update notify ptr pre.length w o hread, hi.1, h1, Option.some_bind]
      simpa using h2
    · simpa [registeredBy, List.append_assoc] using hi2
    · rw [hl2, hl1]
      simp

/-- A whole broadcast over observers whose `Update` bodies only register: it
delivers to exactly the observers the subject held when it began, and the
subject then holds these followed by the newly registered ones. -/
theorem notify_registering (slack : Nat → Nat → Nat) (Update : ObsId → String → List Call)
    (depth : Nat) {w : World} {xs : List ObsId} (hw : Holds w xs)
    (hU : ∀ o ∈ xs, ∀ c ∈ Update o w.subject.weather, ∃ m, c = Call.registerObserver m) :
    ∃ w1, NotifyObservers slack Update (depth + 1) w = some w1 ∧
      w1.log = w.log ++ xs.map (fun o => (o, w.subject.weather)) ∧
      Holds w1 (xs ++ registeredBy Update w.subject.weather xs) ∧
      w1.subject.weather = w.subject.weather := by
  obtain ⟨spare, harr, _⟩ := holds_spare hw
  have hinv : RegInv w.subject.observers.ptr xs w.subject.weather w [] :=
    ⟨rfl, hw.1, ⟨spare, harr⟩, by simpa using hw⟩
  obtain ⟨w1, h1, hi1, hl1⟩ := forIdx_regInv slack Update (NotifyObservers slack Update depth)
    w.subject.observers.ptr xs w.subject.weather xs [] (by simp) hU w [] hinv
  refine ⟨w1, ?_, hl1, by simpa using hi1.2.2.2, hi1.1⟩
  simp only [NotifyObservers, List.range_eq_range', hw.2.2.1]
  simpa using h1

/-! ## The claims -/

/-- C1: on a fresh subject on which the pairwise-distinct observers `xs` were
registered in order, with observers whose `Update` makes no call on the
subject, `SetWeather(v)` returns, and the calls of `Update` it made are
exactly one `Update(v)` per registered observer, in registration order. -/
theorem C1_setWeather_delivers_once_in_registration_order (slack : Nat → Nat → Nat)
    (Update : ObsId → String → List Call) (depth : Nat) (xs : List ObsId) (v : String)
    (hd : xs.Nodup) (hp : ∀ o ∈ xs, ∀ s, Update o s = []) :
    ∃ w1, SetWeather slack Update (depth + 1) v (registerAll slack NewSubject xs) = some w1 ∧
      w1.log = xs.map (fun o => (o, v)) ∧
      ∀ o ∈ xs, deliveriesTo o w1.log = [(o, v)] := by
  have hw : Holds (registerAll slack NewSubject xs) xs := by
    simpa using holds_registerAll slack xs holds_NewSubject
  have hlog : (registerAll slack NewSubject xs).log = [] :=
    (registerAll_log slack NewSubject xs).1
  refine ⟨_, notify_passive slack Update depth ((holds_weather _ xs v).2 hw)
    (fun o ho => hp o ho _), ?_, ?_⟩
  · show (registerAll slack NewSubject xs).log ++ _ = _
    rw [hlog]
    rfl
  · intro o ho
    show deliveriesTo o ((registerAll slack NewSubject xs).log ++ _) = _
    rw [hlog]
    exact deliveriesTo_map_once o v xs hd ho

/-- Witness of C1: three displays on the weather station. -/
theorem C1_witness :
    [1, 2, 3].Nodup ∧ (∀ o ∈ [1, 2, 3], ∀ s, ConcreteObserver.Update o s = []) ∧
    ∃ w1, SetWeather doubling ConcreteObserver.Update 1 "Sunny"
        (registerAll doubling NewSubject [1, 2, 3]) = some w1 ∧
      w1.log = [1, 2, 3].map (fun o => (o, "Sunny")) ∧
      ∀ o ∈ [1, 2, 3], deliveriesTo o w1.log = [(o, "Sunny")] :=
  ⟨by decide, fun _ _ _ => rfl,
    C1_setWeather_delivers_once_in_registration_order doubling ConcreteObserver.Update 0
      [1, 2, 3] "Sunny" (by decide) (fun _ _ _ => rfl)⟩

/-- C2: on every subject holding pairwise-distinct observers `xs`, after
`RemoveObserver(c)` of a registered `c` the next `SetWeather(v)` returns and
calls `Update(v)` on exactly the other observers, each once, in their
original order (`xs` with `c` erased), and never on `c`. -/
theorem C2_removed_observer_gets_no_delivery (slack : Nat → Nat → Nat)
    (Update : ObsId → String → List Call) (depth : Nat) (w : World) (xs : List ObsId)
    (c : ObsId) (v : String) (hw : Holds w xs) (hd : xs.Nodup) (hc : c ∈ xs)
    (hp : ∀ o ∈ xs, ∀ s, Update o s = []) :
    ∃ w1, SetWeather slack Update (depth + 1) v (RemoveObserver slack w c) = some w1 ∧
      w1.log = w.log ++ (xs.erase c).map (fun o => (o, v)) ∧
      deliveriesTo c ((xs.erase c).map (fun o => (o, v))) = [] ∧
      ∀ o ∈ xs, o ≠ c → deliveriesTo o ((xs.erase c).map (fun o => (o, v))) = [(o, v)] := by
  have hr : Holds (RemoveObserver slack w c) (xs.erase c) := holds_remove slack hw hc
  have hlog := (remove_log slack w c).1
  refine ⟨_, notify_passive slack Update depth ((holds_weather _ _ v).2 hr)
    (fun o ho => hp o (List.mem_of_mem_erase ho) _), ?_, ?_, ?_⟩
  · show (RemoveObserver slack w c).log ++ _ = _
    rw [hlog]
  · exact deliveriesTo_map_none c v _ (fun h => (List.Nodup.mem_erase_iff hd).1 h |>.1 rfl)
  · intro o ho hoc
    exact deliveriesTo_map_once o v _ (hd.erase c) ((List.mem_erase_of_ne hoc).2 ho)

/-- Witness of C2: the scenario of `main`. Displays 1, 2, 3 are registered,
display 3 is removed, and the next broadcast reaches displays 1 and 2 only. -/
theorem C2_witness :
    Holds (registerAll doubling NewSubject [1, 2, 3]) [1, 2, 3] ∧
    ∃ w1, SetWeather doubling ConcreteObserver.Update 1 "Cloudy"
        (RemoveObserver doubling (registerAll doubling NewSubject [1, 2, 3]) 3) = some w1 ∧
      w1.log = (registerAll doubling NewSubject [1, 2, 3]).log ++
        ([1, 2, 3].erase 3).map (fun o => (o, "Cloudy")) ∧
      deliveriesTo 3 (([1, 2, 3].erase 3).map (fun o => (o, "Cloudy"))) = [] ∧
      ∀ o ∈ [1, 2, 3], o ≠ 3 →
        deliveriesTo o (([1, 2, 3].erase 3).map (fun o => (o, "Cloudy"))) = [(o, "Cloudy")] :=
  ⟨by unfold Holds; decide,
    C2_removed_observer_gets_no_delivery doubling ConcreteObserver.Update 0
      (registerAll doubling NewSubject [1, 2, 3]) [1, 2, 3] 3 "Cloudy"
      (by unfold Holds; decide) (by decide) (by decide) (fun _ _ _ => rfl)⟩

/-- C3, counterexample: an observer registered twice on a fresh subject is
called twice by the next `SetWeather`, and the observer sequence holds two
entries with its identity. -/
theorem C3_counterexample :
    ∃ w1, SetWeather doubling ConcreteObserver.Update 1 "Sunny"
        (RegisterObserver doubling (RegisterObserver doubling NewSubject 1) 1) = some w1 ∧
      deliveriesTo 1 w1.log = [(1, "Sunny"), (1, "Sunny")] ∧
      elems w1.heap w1.subject.observers = [some 1, some 1] ∧
      ¬ (elems w1.heap w1.subject.observers).Nodup :=
  ⟨_, rfl, by decide, by decide, by decide⟩

/-- C3, amended: `RegisterObserver` appends unconditionally. On every subject
holding `xs`, registering `s` twice makes it hold `xs` followed by two
entries `s`, and the next `SetWeather(v)` (observers making no call on the
subject) calls `Update(v)` once per entry: `s` receives two deliveries more
than it had entries before. -/
theorem C3_register_twice_delivers_twice (slack : Nat → Nat → Nat)
    (Update : ObsId → String → List Call) (depth : Nat) (w : World) (xs : List ObsId)
    (s : ObsId) (v : String) (hw : Holds w xs)
    (hp : ∀ o ∈ s :: xs, ∀ t, Update o t = []) :
    Holds (RegisterObserver slack (RegisterObserver slack w s) s) (xs ++ [s, s]) ∧
    ∃ w1, SetWeather slack Update (depth + 1) v
        (RegisterObserver slack (RegisterObserver slack w s) s) = some w1 ∧
      w1.log = w.log ++ (xs ++ [s, s]).map (fun o => (o, v)) ∧
      deliveriesTo s ((xs ++ [s, s]).map (fun o => (o, v))) =
        List.replicate (xs.count s + 2) (s, v) := by
  have h2 : Holds (RegisterObserver slack (RegisterObserver slack w s) s) (xs ++ [s, s]) := by
    simpa using holds_register slack s (holds_register slack s hw)
  refine ⟨h2, _, notify_passive slack Update depth ((holds_weather _ _ v).2 h2) ?_, rfl, ?_⟩
  · intro o ho
    apply hp
    simp only [List.mem_append, List.mem_cons, List.mem_singleton, List.not_mem_nil,
      or_false] at ho ⊢
    tauto
  · rw [deliveriesTo_map]
    simp

/-- Witness of C3 (amended): a second and third entry for display 1. -/
theorem C3_witness :
    Holds (RegisterObserver doubling NewSubject 1) [1] ∧
    (Holds (RegisterObserver doubling (RegisterObserver doubling
        (RegisterObserver doubling NewSubject 1) 1) 1) ([1] ++ [1, 1]) ∧
    ∃ w1, SetWeather doubling ConcreteObserver.Update 1 "Sunny"
        (RegisterObserver doubling (RegisterObserver doubling
          (RegisterObserver doubling NewSubject 1) 1) 1) = some w1 ∧
      w1.log = (RegisterObserver doubling NewSubject 1).log ++
        ([1] ++ [1, 1]).map (fun o => (o, "Sunny")) ∧
      deliveriesTo 1 (([1] ++ [1, 1]).map (fun o => (o, "Sunny"))) =
        List.replicate ([1].count 1 + 2) (1, "Sunny")) :=
  ⟨by unfold Holds; decide,
    C3_register_twice_delivers_twice doubling ConcreteObserver.Update 0
      (RegisterObserver doubling NewSubject 1) [1] 1 "Sunny" (by unfold Holds; decide)
      (fun _ _ _ => rfl)⟩

/-- C4: the weather of the subject returned by `NewSubject` is the empty
string; on every subject, `SetWeather(v)` returns with the stored weather
equal to `v`, whatever the observers register or remove in their `Update`
(as long as none of them itself calls `SetWeather`); and on a subject with
zero observers `SetWeather(v)` makes no call of `Update` and changes nothing
but the stored weather. -/
theorem C4_weather_unset_then_last_published (slack : Nat → Nat → Nat)
    (Update : ObsId → String → List Call) (depth : Nat) (w : World) (xs : List ObsId)
    (v : String) (hw : Holds w xs)
    (hU : ∀ o s, ∀ c ∈ Update o s, ∀ x, c ≠ Call.setWeather x) :
    NewSubject.subject.weather = "" ∧
    (∃ w1, SetWeather slack Update (depth + 1) v w = some w1 ∧ w1.subject.weather = v) ∧
    (xs = [] → SetWeather slack Update (depth + 1) v w =
      some { w with subject := { w.subject with weather := v } }) := by
  refine ⟨rfl, ?_, ?_⟩
  · obtain ⟨spare, harr, _⟩ := holds_spare hw
    have hinv : LoopInv w.subject.observers.ptr w.subject.observers.len v
        { w with subject := { w.subject with weather := v } } := by
      refine ⟨rfl, hw.1, ?_, xs, hw⟩
      intro i hi
      rw [hw.2.2.1] at hi
      refine ⟨xs[i], ?_⟩
      show (arrayAt w.heap w.subject.observers.ptr)[i]? = _
      rw [harr, List.getElem?_append_left (by simpa using hi)]
      simp [hi]
    obtain ⟨w1, hw1, hi1⟩ := forIdx_loopInv slack Update (NotifyObservers slack Update depth)
      w.subject.observers.ptr w.subject.observers.len v hU
      (List.range w.subject.observers.len) (fun i hi => List.mem_range.1 hi) _ hinv
    exact ⟨w1, hw1, hi1.1⟩
  · intro hxs
    have hlen : w.subject.observers.len = 0 := by rw [hw.2.2.1, hxs]; rfl
    simp [SetWeather, NotifyObservers, hlen, forIdx]

/-- Witness of C4: publishing on the station with three displays. -/
theorem C4_witness :
    Holds (registerAll doubling NewSubject [1, 2, 3]) [1, 2, 3] ∧
    (NewSubject.subject.weather = "" ∧
    (∃ w1, SetWeather doubling ConcreteObserver.Update 1 "Sunny"
        (registerAll doubling NewSubject [1, 2, 3]) = some w1 ∧ w1.subject.weather = "Sunny") ∧
    ([1, 2, 3] = [] → SetWeather doubling ConcreteObserver.Update 1 "Sunny"
        (registerAll doubling NewSubject [1, 2, 3]) =
      some { registerAll doubling NewSubject [1, 2, 3] with
        subject := { (registerAll doubling NewSubject [1, 2, 3]).subject with
          weather := "Sunny" } })) :=
  ⟨by unfold Holds; decide,
    C4_weather_unset_then_last_published doubling ConcreteObserver.Update 0
      (registerAll doubling NewSubject [1, 2, 3]) [1, 2, 3] "Sunny" (by unfold Holds; decide)
      (fun _ _ c hc => absurd hc (List.not_mem_nil c))⟩

/-- C5: `RemoveObserver(o)` for an observer that is not among the subject's
current observers returns the state unchanged: same observer sequence, same
backing arrays, same weather, no call recorded. -/
theorem C5_remove_unregistered_is_noop (slack : Nat → Nat → Nat) (w : World) (o : ObsId)
    (ho : some o ∉ elems w.heap w.subject.observers) : RemoveObserver slack w o = w :=
  remove_absent slack w o ho

/-- Witness of C5: removing display 4 from a station holding displays 1, 2, 3. -/
theorem C5_witness :
    some 4 ∉ elems (registerAll doubling NewSubject [1, 2, 3]).heap
      (registerAll doubling NewSubject [1, 2, 3]).subject.observers ∧
    RemoveObserver doubling (registerAll doubling NewSubject [1, 2, 3]) 4 =
      registerAll doubling NewSubject [1, 2, 3] :=
  ⟨by decide, C5_remove_unregistered_is_noop doubling
    (registerAll doubling NewSubject [1, 2, 3]) 4 (by decide)⟩

/-- C7, counterexample: displays 1, 2, 3, 4 are registered and display 1
removes itself inside its `Update`. In that broadcast display 2 is skipped
and display 4 is called twice. -/
theorem C7_counterexample :
    [1, 2, 3, 4].Nodup ∧
    ∃ w1, SetWeather doubling (removerUpdate 1 1) 1 "Sunny"
        (registerAll doubling NewSubject [1, 2, 3, 4]) = some w1 ∧
      w1.log = [(1, "Sunny"), (3, "Sunny"), (4, "Sunny"), (4, "Sunny")] ∧
      deliveriesTo 2 w1.log = [] ∧
      deliveriesTo 4 w1.log = [(4, "Sunny"), (4, "Sunny")] :=
  ⟨by decide, _, rfl, by decide, by decide, by decide⟩

/-- C7, amended: on a subject holding pairwise-distinct observers
`pre ++ r :: post`, where `r` removes itself inside its own `Update` and
the others make no call, `SetWeather(v)` returns; afterwards the subject
holds `pre ++ post`, so the next `SetWeather(v2)` makes no call on `r` and
calls every other observer once, in order. In the in-flight broadcast the
loop keeps its original length over the array whose tail was moved one slot
down: after `r` it visits `post` from its second element on and then the old
last slot again, that is `(post ++ [last of post]).drop 1`. -/
theorem C7_self_removal_shifts_inflight_broadcast (slack : Nat → Nat → Nat)
    (Update : ObsId → String → List Call) (depth : Nat) (w : World)
    (pre post : List ObsId) (r : ObsId) (v v2 : String)
    (hw : Holds w (pre ++ r :: post)) (hd : (pre ++ r :: post).Nodup)
    (hur : ∀ s, Update r s = [Call.removeObserver r])
    (hp : ∀ o ∈ pre ++ post, ∀ s, Update o s = []) :
    ∃ w1, SetWeather slack Update (depth + 1) v w = some w1 ∧
      w1.log = w.log ++
        (pre ++ r :: (post ++ [post.getLastD r]).drop 1).map (fun o => (o, v)) ∧
      Holds w1 (pre ++ post) ∧
      ∃ w2, SetWeather slack Update (depth + 1) v2 w1 = some w2 ∧
        w2.log = w1.log ++ (pre ++ post).map (fun o => (o, v2)) ∧
        deliveriesTo r ((pre ++ post).map (fun o => (o, v2))) = [] ∧
        ∀ o ∈ pre ++ post, deliveriesTo o ((pre ++ post).map (fun o => (o, v2))) = [(o, v2)] := by
  have hrpre : r ∉ pre := fun h => by
    have := (List.nodup_append.1 hd).2.2
    exact this h (by simp) 
  have hrpost : r ∉ post := (List.nodup_cons.1 (List.nodup_append.1 hd).2.1).1
  have hdd : (pre ++ post).Nodup := by
    have h := hd
    rw [List.nodup_append] at h ⊢
    exact ⟨h.1, (List.nodup_cons.1 h.2.1).2, fun a ha hb => h.2.2 ha (List.mem_cons_of_mem _ hb)⟩
  have hos : pre ++ post ++ [post.getLastD r] =
      pre ++ (post ++ [post.getLastD r]).headD r :: (post ++ [post.getLastD r]).drop 1 := by
    cases post <;> simp
  obtain ⟨w1, h1, hlog1, hh1, hv1⟩ := notify_remover slack Update depth
    (w := { w with subject := { w.subject with weather := v } }) hw rfl hrpre (hur v)
    (fun o ho => hp o (by simp [ho]) v) hos
    (fun o ho => hp o (List.mem_append_right _ (getLastD_drop_mem post r o ho)) v)
  refine ⟨w1, h1, hlog1, hh1, ?_⟩
  refine ⟨_, notify_passive slack Update depth ((holds_weather w1 _ v2).2 hh1)
    (fun o ho => hp o ho v2), rfl, ?_, ?_⟩
  · exact deliveriesTo_map_none r v2 _ (by simp [hrpre, hrpost])
  · intro o ho
    exact deliveriesTo_map_once o v2 _ hdd ho

/-- Witness of C7 (amended): displays 1, 2, 3, 4 with display 1 removing
itself. -/
theorem C7_witness :
    Holds (registerAll doubling NewSubject [1, 2, 3, 4]) ([] ++ 1 :: [2, 3, 4]) ∧
    ∃ w1, SetWeather doubling (removerUpdate 1 1) 1 "Sunny"
        (registerAll doubling NewSubject [1, 2, 3, 4]) = some w1 ∧
      w1.log = (registerAll doubling NewSubject [1, 2, 3, 4]).log ++
        ([] ++ 1 :: ([2, 3, 4] ++ [[2, 3, 4].getLastD 1]).drop 1).map (fun o => (o, "Sunny")) ∧
      Holds w1 ([] ++ [2, 3, 4]) ∧
      ∃ w2, SetWeather doubling (removerUpdate 1 1) 1 "Rainy" w1 = some w2 ∧
        w2.log = w1.log ++ ([] ++ [2, 3, 4]).map (fun o => (o, "Rainy")) ∧
        deliveriesTo 1 (([] ++ [2, 3, 4]).map (fun o => (o, "Rainy"))) = [] ∧
        ∀ o ∈ [] ++ [2, 3, 4],
          deliveriesTo o (([] ++ [2, 3, 4]).map (fun o => (o, "Rainy"))) = [(o, "Rainy")] :=
  ⟨by unfold Holds; decide,
    C7_self_removal_shifts_inflight_broadcast doubling (removerUpdate 1 1) 0
      (registerAll doubling NewSubject [1, 2, 3, 4]) [] [2, 3, 4] 1 "Sunny" "Rainy"
      (by unfold Holds; decide) (by decide) (fun _ => rfl)
      (by
        intro o ho s
        have h1 : o ≠ 1 := by
          intro h
          subst h
          simp at ho
        simp [removerUpdate, h1])⟩

/-- C8, counterexample: displays 1, 2, 3 are registered; inside `Update`
display 1 registers display 9 and display 2 removes itself. The append wrote
9 into the array the loop ranges over and the removal moved it one slot down,
so display 9 is called in that same broadcast. And when displays 1 and 2 both
register display 9 during a broadcast, the next broadcast calls display 9
twice. -/
theorem C8_counterexample :
    (9 ∉ [1, 2, 3] ∧
      ∃ w1, SetWeather doubling
          (scriptedUpdate [(1, [Call.registerObserver 9]), (2, [Call.removeObserver 2])])
          1 "Sunny" (registerAll doubling NewSubject [1, 2, 3]) = some w1 ∧
        w1.log = [(1, "Sunny"), (2, "Sunny"), (9, "Sunny")] ∧
        deliveriesTo 9 w1.log = [(9, "Sunny")]) ∧
    (9 ∉ [1, 2] ∧
      ∃ w1 w2, SetWeather doubling
          (scriptedUpdate [(1, [Call.registerObserver 9]), (2, [Call.registerObserver 9])])
          1 "Sunny" (registerAll doubling NewSubject [1, 2]) = some w1 ∧
        SetWeather doubling
          (scriptedUpdate [(1, [Call.registerObserver 9]), (2, [Call.registerObserver 9])])
          1 "Rainy" w1 = some w2 ∧
        w2.log = w1.log ++ [(1, "Rainy"), (2, "Rainy"), (9, "Rainy"), (9, "Rainy")] ∧
        deliveriesTo 9 (w2.log.drop w1.log.length) = [(9, "Rainy"), (9, "Rainy")]) :=
  ⟨⟨by decide, _, rfl, by decide, by decide⟩,
    ⟨by decide, _, _, rfl, rfl, by decide, by decide⟩⟩

/-- C8, amended: on every subject holding `xs`, with `n` not registered, where
some `Update` calls `RegisterObserver(n)` during the broadcast of
`SetWeather(v)` and the `Update` bodies run in it make only
`RegisterObserver` calls: that broadcast returns and calls exactly the
observers registered when it began, so `n` receives no delivery in it; the
subject then holds `xs` followed by the newly registered observers, and the
next `SetWeather(v2)` (bodies again only registering) calls these in that
order, `n` after all of `xs` and once per registration of `n`, hence exactly
once when `n` was registered exactly once. -/
theorem C8_registered_during_register_only_broadcast (slack : Nat → Nat → Nat)
    (Update : ObsId → String → List Call) (depth : Nat) (w : World)
    (xs : List ObsId) (n : ObsId) (v v2 : String)
    (hw : Holds w xs) (hn : n ∉ xs) (hreg : n ∈ registeredBy Update v xs)
    (hU1 : ∀ o ∈ xs, ∀ c ∈ Update o v, ∃ m, c = Call.registerObserver m)
    (hU2 : ∀ o ∈ xs ++ registeredBy Update v xs, ∀ c ∈ Update o v2,
      ∃ m, c = Call.registerObserver m) :
    ∃ w1 w2, SetWeather slack Update (depth + 1) v w = some w1 ∧
      w1.log = w.log ++ xs.map (fun o => (o, v)) ∧
      deliveriesTo n (xs.map (fun o => (o, v))) = [] ∧
      Holds w1 (xs ++ registeredBy Update v xs) ∧
      SetWeather slack Update (depth + 1) v2 w1 = some w2 ∧
      w2.log = w1.log ++ (xs ++ registeredBy Update v xs).map (fun o => (o, v2)) ∧
      deliveriesTo n ((xs ++ registeredBy Update v xs).map (fun o => (o, v2))) =
        List.replicate ((registeredBy Update v xs).count n) (n, v2) ∧
      0 < (registeredBy Update v xs).count n ∧
      ((registeredBy Update v xs).count n = 1 →
        deliveriesTo n ((xs ++ registeredBy Update v xs).map (fun o => (o, v2))) =
          [(n, v2)]) := by
  obtain ⟨w1, h1, hlog1, hh1, _⟩ := @notify_registering slack Update depth
    ⟨w.heap, { w.subject with weather := v }, w.log⟩ xs hw hU1
  have hh1b : Holds ⟨w1.heap, { w1.subject with weather := v2 }, w1.log⟩
      (xs ++ registeredBy Update v xs) := hh1
  obtain ⟨w2, h2, hlog2, _, _⟩ := @notify_registering slack Update depth
    ⟨w1.heap, { w1.subject with weather := v2 }, w1.log⟩ _ hh1b hU2
  have hcount : deliveriesTo n ((xs ++ registeredBy Update v xs).map (fun o => (o, v2))) =
      List.replicate ((registeredBy Update v xs).count n) (n, v2) := by
    rw [deliveriesTo_map, List.count_append, List.count_eq_zero_of_not_mem hn, Nat.zero_add]
  refine ⟨w1, w2, h1, hlog1, deliveriesTo_map_none n v xs hn, hh1, h2, hlog2, hcount,
    List.count_pos_iff.2 hreg, ?_⟩
  intro hone
  rw [hcount, hone]
  rfl

/-- Witness of C8 (amended): display 1 registers display 9 while displays 1,
2, 3 are being notified. -/
theorem C8_witness :
    Holds (registerAll doubling NewSubject [1, 2, 3]) [1, 2, 3] ∧
    9 ∈ registeredBy (registrarUpdate 1 9) "Sunny" [1, 2, 3] ∧
    (registeredBy (registrarUpdate 1 9) "Sunny" [1, 2, 3]).count 9 = 1 ∧
    ∃ w1 w2, SetWeather doubling (registrarUpdate 1 9) 1 "Sunny"
        (registerAll doubling NewSubject [1, 2, 3]) = some w1 ∧
      w1.log = (registerAll doubling NewSubject [1, 2, 3]).log ++
        [1, 2, 3].map (fun o => (o, "Sunny")) ∧
      deliveriesTo 9 ([1, 2, 3].map (fun o => (o, "Sunny"))) = [] ∧
      Holds w1 ([1, 2, 3] ++ registeredBy (registrarUpdate 1 9) "Sunny" [1, 2, 3]) ∧
      SetWeather doubling (registrarUpdate 1 9) 1 "Rainy" w1 = some w2 ∧
      w2.log = w1.log ++
        ([1, 2, 3] ++ registeredBy (registrarUpdate 1 9) "Sunny" [1, 2, 3]).map
          (fun o => (o, "Rainy")) ∧
      deliveriesTo 9 (([1, 2, 3] ++ registeredBy (registrarUpdate 1 9) "Sunny" [1, 2, 3]).map
          (fun o => (o, "Rainy"))) =
        List.replicate ((registeredBy (registrarUpdate 1 9) "Sunny" [1, 2, 3]).count 9)
          (9, "Rainy") ∧
      0 < (registeredBy (registrarUpdate 1 9) "Sunny" [1, 2, 3]).count 9 ∧
      ((registeredBy (registrarUpdate 1 9) "Sunny" [1, 2, 3]).count 9 = 1 →
        deliveriesTo 9
          (([1, 2, 3] ++ registeredBy (registrarUpdate 1 9) "Sunny" [1, 2, 3]).map
            (fun o => (o, "Rainy"))) = [(9, "Rainy")]) :=
  ⟨by unfold Holds; decide, by decide, by decide,
    C8_registered_during_register_only_broadcast doubling (registrarUpdate 1 9) 0
      (registerAll doubling NewSubject [1, 2, 3]) [1, 2, 3] 9 "Sunny" "Rainy"
      (by unfold Holds; decide) (by decide) (by decide)
      (by
        intro o _ c hc
        unfold registrarUpdate at hc
        split at hc
        · exact ⟨9, by simpa using hc⟩
        · simp at hc)
      (by
        intro o _ c hc
        unfold registrarUpdate at hc
        split at hc
        · exact ⟨9, by simpa using hc⟩
        · simp at hc)⟩

/-- C9, counterexample: with displays 1, 2, 3 registered and display 1
removing the last display 3 inside its `Update`, display 3 is still called in
that same broadcast; with displays 1, 2, 3, 4 and display 1 removing display
2, the not-yet-visited display 4 is called twice. -/
theorem C9_counterexample :
    (∃ w1, SetWeather doubling (removerUpdate 1 3) 1 "Sunny"
        (registerAll doubling NewSubject [1, 2, 3]) = some w1 ∧
      w1.log = [(1, "Sunny"), (2, "Sunny"), (3, "Sunny")] ∧
      deliveriesTo 3 w1.log = [(3, "Sunny")]) ∧
    (∃ w1, SetWeather doubling (removerUpdate 1 2) 1 "Sunny"
        (registerAll doubling NewSubject [1, 2, 3, 4]) = some w1 ∧
      w1.log = [(1, "Sunny"), (3, "Sunny"), (4, "Sunny"), (4, "Sunny")] ∧
      deliveriesTo 4 w1.log = [(4, "Sunny"), (4, "Sunny")]) :=
  ⟨⟨_, rfl, by decide, by decide⟩, ⟨_, rfl, by decide, by decide⟩⟩

/-- C9, amended: on a subject holding pairwise-distinct observers
`pre ++ r :: mid ++ t :: post`, where `Update` of `r` removes the
not-yet-visited `t` and the others make no call, `SetWeather(v)` returns and
the subject then holds the sequence without `t`. In that broadcast the loop
keeps its original length over the array whose tail was moved one slot down,
so after `r` it visits `mid`, `post` and then the old last slot again. Hence:
if `t` is the last registered observer it is still called once; otherwise
`t` is not called, the last registered observer is called twice, and every
other observer behind `r` is called once. -/
theorem C9_removal_of_unvisited_shifts_inflight_broadcast (slack : Nat → Nat → Nat)
    (Update : ObsId → String → List Call) (depth : Nat) (w : World)
    (pre mid post : List ObsId) (r t : ObsId) (v : String)
    (hw : Holds w (pre ++ r :: (mid ++ t :: post)))
    (hd : (pre ++ r :: (mid ++ t :: post)).Nodup)
    (hur : ∀ s, Update r s = [Call.removeObserver t])
    (hp : ∀ o ∈ pre ++ (mid ++ t :: post), ∀ s, Update o s = []) :
    ∃ w1, SetWeather slack Update (depth + 1) v w = some w1 ∧
      w1.log = w.log ++
        (pre ++ r :: (mid ++ post ++ [post.getLastD t])).map (fun o => (o, v)) ∧
      Holds w1 (pre ++ r :: (mid ++ post)) ∧
      (post = [] → deliveriesTo t
        ((pre ++ r :: (mid ++ post ++ [post.getLastD t])).map (fun o => (o, v))) = [(t, v)]) ∧
      (post ≠ [] →
        deliveriesTo t
          ((pre ++ r :: (mid ++ post ++ [post.getLastD t])).map (fun o => (o, v))) = [] ∧
        deliveriesTo (post.getLastD t)
          ((pre ++ r :: (mid ++ post ++ [post.getLastD t])).map (fun o => (o, v))) =
            [(post.getLastD t, v), (post.getLastD t, v)]) ∧
      ∀ o ∈ mid ++ post.dropLast, deliveriesTo o
        ((pre ++ r :: (mid ++ post ++ [post.getLastD t])).map (fun o => (o, v))) = [(o, v)] := by
  have hsplit : pre ++ r :: (mid ++ t :: post) = (pre ++ r :: mid) ++ t :: post := by simp
  have hta : t ∉ pre ++ r :: mid := by
    rw [hsplit] at hd
    intro h
    exact (List.nodup_append.1 hd).2.2 h (by simp)
  have hos : (pre ++ r :: mid) ++ post ++ [post.getLastD t] =
      pre ++ r :: (mid ++ post ++ [post.getLastD t]) := by simp
  obtain ⟨w1, h1, hlog1, hh1, _⟩ := notify_remover slack Update depth
    (w := { w with subject := { w.subject with weather := v } }) hw hsplit hta (hur v)
    (fun o ho => hp o (by simp [ho]) v) hos
    (fun o ho => by
      apply hp
      simp only [List.mem_append, List.mem_cons, List.mem_singleton, List.not_mem_nil,
        or_false] at ho ⊢
      rcases ho with (h | h) | h
      · exact Or.inr (Or.inl h)
      · exact Or.inr (Or.inr (Or.inr h))
      · have := List.getLastD_mem_cons post t
        rw [← h] at this
        rcases List.mem_cons.1 this with h2 | h2
        · exact Or.inr (Or.inr (Or.inl h2))
        · exact Or.inr (Or.inr (Or.inr h2)))
  have hcnt : ∀ o, List.count o (pre ++ r :: (mid ++ post ++ [post.getLastD t])) +
      (if t = o then 1 else 0) =
      List.count o (pre ++ r :: (mid ++ t :: post)) +
        (if post.getLastD t = o then 1 else 0) := by
    intro o
    simp only [List.count_append, List.count_cons, List.count_nil, beq_iff_eq]
    omega
  have hle : ∀ o, List.count o (pre ++ r :: (mid ++ t :: post)) ≤ 1 :=
    fun o => List.nodup_iff_count_le_one.1 hd o
  have hmem1 : ∀ o, o ∈ pre ++ r :: (mid ++ t :: post) →
      List.count o (pre ++ r :: (mid ++ t :: post)) = 1 :=
    fun o ho => List.count_eq_one_of_mem hd ho
  refine ⟨w1, h1, hlog1, by simpa using hh1, ?_, ?_, ?_⟩
  · intro hpost
    subst hpost
    exact deliveriesTo_map_once t v _ (by simpa using hd) (by simp)
  · intro hpost
    have hlast : post.getLastD t ∈ post := by
      obtain ⟨ps, l, rfl⟩ := List.eq_nil_or_concat post |>.resolve_left hpost
      simp [List.getLastD_concat]
    have hlt : post.getLastD t ≠ t := by
      intro h
      rw [h] at hlast
      have h1 := hle t
      have h2 : 0 < List.count t post := List.count_pos_iff.2 hlast
      simp only [List.count_append, List.count_cons, beq_self_eq_true, if_true] at h1
      omega
    rw [deliveriesTo_map, deliveriesTo_map]
    have ht := hcnt t
    have hl := hcnt (post.getLastD t)
    have ht1 := hmem1 t (by simp)
    have hl1 := hmem1 (post.getLastD t)
      (List.mem_append_right _ (List.mem_cons_of_mem _ (List.mem_append_right _
        (List.mem_cons_of_mem _ hlast))))
    rw [if_pos rfl, if_neg hlt, ht1] at ht
    rw [if_neg (Ne.symm hlt), if_pos rfl, hl1] at hl
    have ht0 : List.count t (pre ++ r :: (mid ++ post ++ [post.getLastD t])) = 0 := by omega
    have hl2 : List.count (post.getLastD t)
        (pre ++ r :: (mid ++ post ++ [post.getLastD t])) = 2 := by omega
    rw [ht0, hl2]
    exact ⟨rfl, rfl⟩
  · intro o ho
    rw [deliveriesTo_map]
    have hoxs : o ∈ pre ++ r :: (mid ++ t :: post) := by
      simp only [List.mem_append, List.mem_cons]
      rcases List.mem_append.1 ho with h | h
      · exact Or.inr (Or.inr (Or.inl h))
      · exact Or.inr (Or.inr (Or.inr (Or.inr (List.mem_of_mem_dropLast h))))
    have hot : t ≠ o := by
      intro h
      subst h
      have h1 := hle t
      have h2 : 0 < List.count t (mid ++ post) := by
        apply List.count_pos_iff.2
        rcases List.mem_append.1 ho with h | h
        · exact List.mem_append_left _ h
        · exact List.mem_append_right _ (List.mem_of_mem_dropLast h)
      simp only [List.count_append, List.count_cons, beq_self_eq_true, if_true] at h1 h2
      omega
    have hol : post.getLastD t ≠ o := by
      intro h
      rcases List.eq_nil_or_concat post with hpost | ⟨ps, l, hpost⟩
      · subst hpost
        exact hot h
      · subst hpost
        simp only [List.concat_eq_append, List.getLastD_concat] at h
        subst h
        simp only [List.concat_eq_append, List.dropLast_concat] at ho
        have h2 : 0 < List.count l (mid ++ ps) := List.count_pos_iff.2 ho
        have h3 := hle l
        simp only [List.concat_eq_append, List.count_append, List.count_cons, List.count_nil,
          beq_self_eq_true, if_true] at h2 h3
        omega
    have h := hcnt o
    rw [if_neg hot, if_neg hol, hmem1 o hoxs] at h
    simp only [Nat.add_zero] at h
    rw [h]
    rfl

/-- Witness of C9 (amended): displays 1, 2, 3, 4 with display 1 removing
display 3. -/
theorem C9_witness :
    Holds (registerAll doubling NewSubject [1, 2, 3, 4]) ([] ++ 1 :: ([2] ++ 3 :: [4])) ∧
    ∃ w1, SetWeather doubling (removerUpdate 1 3) 1 "Sunny"
        (registerAll doubling NewSubject [1, 2, 3, 4]) = some w1 ∧
      w1.log = (registerAll doubling NewSubject [1, 2, 3, 4]).log ++
        ([] ++ 1 :: ([2] ++ [4] ++ [[4].getLastD 3])).map (fun o => (o, "Sunny")) ∧
      Holds w1 ([] ++ 1 :: ([2] ++ [4])) ∧
      ([4] = [] → deliveriesTo 3
        (([] ++ 1 :: ([2] ++ [4] ++ [[4].getLastD 3])).map (fun o => (o, "Sunny"))) =
          [(3, "Sunny")]) ∧
      ([4] ≠ [] →
        deliveriesTo 3
          (([] ++ 1 :: ([2] ++ [4] ++ [[4].getLastD 3])).map (fun o => (o, "Sunny"))) = [] ∧
        deliveriesTo ([4].getLastD 3)
          (([] ++ 1 :: ([2] ++ [4] ++ [[4].getLastD 3])).map (fun o => (o, "Sunny"))) =
            [([4].getLastD 3, "Sunny"), ([4].getLastD 3, "Sunny")]) ∧
      ∀ o ∈ [2] ++ [4].dropLast, deliveriesTo o
        (([] ++ 1 :: ([2] ++ [4] ++ [[4].getLastD 3])).map (fun o => (o, "Sunny"))) =
          [(o, "Sunny")] :=
  ⟨by unfold Holds; decide,
    C9_removal_of_unvisited_shifts_inflight_broadcast doubling (removerUpdate 1 3) 0
      (registerAll doubling NewSubject [1, 2, 3, 4]) [] [2] [4] 1 3 "Sunny"
      (by unfold Holds; decide) (by decide) (fun _ => rfl)
      (by
        intro o ho s
        have h1 : o ≠ 1 := by
          intro h
          subst h
          simp at ho
        simp [removerUpdate, h1])⟩

/-- C10, counterexample: displays 1 and 2 are registered and display 1, when
passed "Sunny", calls `SetWeather("Rainy")`. Display 2, visited afterwards in
the outer broadcast of "Sunny", is passed "Rainy": it is never passed
"Sunny". -/
theorem C10_counterexample :
    ∃ w1, SetWeather doubling (republisherUpdate 1 "Sunny" "Rainy") 2 "Sunny"
        (registerAll doubling NewSubject [1, 2]) = some w1 ∧
      w1.log = [(1, "Sunny"), (1, "Rainy"), (2, "Rainy"), (2, "Rainy")] ∧
      deliveriesTo 2 w1.log = [(2, "Rainy"), (2, "Rainy")] ∧
      (2, "Sunny") ∉ w1.log :=
  ⟨_, rfl, by decide, by decide, by decide⟩

/-- C10, amended: `NotifyObservers` reads the stored weather at every call of
`Update`. On every subject holding `pre ++ r :: post`, where `Update` of `r`
when passed `v` calls `SetWeather(v2)` (and makes no call when passed `v2`;
the others make no call), `SetWeather(v)` returns having passed `v` to `pre`
and to `r`, then, in the nested broadcast, `v2` to every observer, and then
`v2` again, not `v`, to the observers of `post` visited afterwards in the
outer broadcast; the stored weather is `v2` at the end. -/
theorem C10_reentrant_setWeather_changes_inflight_value (slack : Nat → Nat → Nat)
    (Update : ObsId → String → List Call) (depth : Nat) (w : World)
    (pre post : List ObsId) (r : ObsId) (v v2 : String)
    (hw : Holds w (pre ++ r :: post))
    (hur : Update r v = [Call.setWeather v2]) (hur2 : Update r v2 = [])
    (hp : ∀ o ∈ pre ++ post, ∀ s, Update o s = []) :
    ∃ w1, SetWeather slack Update (depth + 2) v w = some w1 ∧
      w1.log = w.log ++ pre.map (fun o => (o, v)) ++ [(r, v)] ++
        (pre ++ r :: post).map (fun o => (o, v2)) ++ post.map (fun o => (o, v2)) ∧
      w1.subject.weather = v2 := by
  obtain ⟨spare, harr, _⟩ := holds_spare hw
  have hall : ∀ o ∈ pre ++ r :: post, Update o v2 = [] := by
    intro o ho
    by_cases hor : o = r
    · rw [hor]; exact hur2
    · apply hp
      simp only [List.mem_append, List.mem_cons] at ho ⊢
      tauto
  have hsplit := notify_split slack Update (depth + 1)
    (w := { w with subject := { w.subject with weather := v } }) hw
    (fun o ho => hp o (List.mem_append_left _ ho) v)
  have hinner := @notify_passive slack Update depth
    ⟨w.heap, { w.subject with weather := v2 },
      w.log ++ pre.map (fun o => (o, v)) ++ [(r, v)]⟩ (pre ++ r :: post) hw hall
  have hP := forIdx_passive slack Update (NotifyObservers slack Update (depth + 1))
    w.subject.observers.ptr
    ⟨w.heap, { w.subject with weather := v2 },
      w.log ++ pre.map (fun o => (o, v)) ++ [(r, v)] ++
        (pre ++ r :: post).map (fun o => (o, v2))⟩
    ((pre ++ [r]).map some) post spare (by rw [harr]; simp)
    (fun o ho => hp o (List.mem_append_right _ ho) v2)
  simp only [List.length_map, List.length_append, List.length_singleton] at hP
  refine ⟨⟨w.heap, { w.subject with weather := v2 },
    w.log ++ pre.map (fun o => (o, v)) ++ [(r, v)] ++
      (pre ++ r :: post).map (fun o => (o, v2)) ++ post.map (fun o => (o, v2))⟩, ?_, rfl, rfl⟩
  unfold SetWeather
  rw [hsplit]
  simp only [hur, runCalls, execCall, Option.bind_eq_bind]
  rw [hinner]
  simp only [Option.some_bind]
  exact hP

/-- Witness of C10 (amended): displays 1, 2, 3 with display 2 publishing
"Rainy" when it is passed "Sunny". -/
theorem C10_witness :
    Holds (registerAll doubling NewSubject [1, 2, 3]) ([1] ++ 2 :: [3]) ∧
    ∃ w1, SetWeather doubling (republisherUpdate 2 "Sunny" "Rainy") 2 "Sunny"
        (registerAll doubling NewSubject [1, 2, 3]) = some w1 ∧
      w1.log = (registerAll doubling NewSubject [1, 2, 3]).log ++
        [1].map (fun o => (o, "Sunny")) ++ [(2, "Sunny")] ++
        ([1] ++ 2 :: [3]).map (fun o => (o, "Rainy")) ++ [3].map (fun o => (o, "Rainy")) ∧
      w1.subject.weather = "Rainy" :=
  ⟨by unfold Holds; decide,
    C10_reentrant_setWeather_changes_inflight_value doubling
      (republisherUpdate 2 "Sunny" "Rainy") 0 (registerAll doubling NewSubject [1, 2, 3])
      [1] [3] 2 "Sunny" "Rainy" (by unfold Holds; decide) (by decide) (by decide)
      (by
        intro o ho s
        have h1 : o ≠ 2 := by
          intro h
          subst h
          simp at ho
        simp [republisherUpdate, h1])⟩

/-- C11: on every subject holding `xs` (entries may repeat) and for every
observer `o` occurring in `xs`, `RemoveObserver(o)` deletes exactly the first
occurrence of `o`: with `xs = a ++ o :: b` and `o` not in `a`, the subject
then holds `a ++ b`, which is `xs` with the entry at index `a.length` erased,
so the length decreases by exactly one, the later occurrences of `o` (those
in `b`) remain, and all other entries keep their relative order; weather and
recorded calls are unchanged. -/
theorem C11_remove_deletes_first_occurrence (slack : Nat → Nat → Nat) (w : World)
    (xs : List ObsId) (o : ObsId) (hw : Holds w xs) (ho : o ∈ xs) :
    ∃ a b, xs = a ++ o :: b ∧ o ∉ a ∧
      Holds (RemoveObserver slack w o) (a ++ b) ∧
      elems (RemoveObserver slack w o).heap (RemoveObserver slack w o).subject.observers =
        (a ++ b).map some ∧
      (RemoveObserver slack w o).subject.observers.len + 1 = w.subject.observers.len ∧
      a ++ b = xs.eraseIdx a.length ∧
      List.count o (a ++ b) = List.count o b ∧
      List.count o (a ++ b) + 1 = List.count o xs ∧
      (a ++ b).filter (fun x => decide (x ≠ o)) = xs.filter (fun x => decide (x ≠ o)) ∧
      (RemoveObserver slack w o).subject.weather = w.subject.weather ∧
      (RemoveObserver slack w o).log = w.log := by
  obtain ⟨a, b, hoa, hxs, her⟩ := List.exists_erase_eq ho
  have hr : Holds (RemoveObserver slack w o) (a ++ b) := her ▸ holds_remove slack hw ho
  have hca : List.count o a = 0 := List.count_eq_zero_of_not_mem hoa
  refine ⟨a, b, hxs, hoa, hr, hr.2.2.2, ?_, ?_, ?_, ?_, ?_,
    (remove_log slack w o).2, (remove_log slack w o).1⟩
  · rw [hr.2.2.1, hw.2.2.1, hxs]
    simp only [List.length_append, List.length_cons]
    omega
  · rw [hxs, List.eraseIdx_append_of_length_le (Nat.le_refl _)]
    simp
  · rw [List.count_append, hca, Nat.zero_add]
  · rw [hxs, List.count_append, List.count_append, List.count_cons_self]
    omega
  · rw [hxs]
    simp [List.filter_append, List.filter_cons]

/-- Witness of C11: display 1 is registered twice, before and after display 2;
removing it deletes the first entry only. -/
theorem C11_witness :
    Holds (registerAll doubling NewSubject [2, 1, 3, 1]) [2, 1, 3, 1] ∧ 1 ∈ [2, 1, 3, 1] ∧
    elems (RemoveObserver doubling (registerAll doubling NewSubject [2, 1, 3, 1]) 1).heap
      (RemoveObserver doubling (registerAll doubling NewSubject [2, 1, 3, 1]) 1).subject.observers
        = [some 2, some 3, some 1] ∧
    ∃ a b, [2, 1, 3, 1] = a ++ 1 :: b ∧ 1 ∉ a ∧
      Holds (RemoveObserver doubling (registerAll doubling NewSubject [2, 1, 3, 1]) 1) (a ++ b) ∧
      elems (RemoveObserver doubling (registerAll doubling NewSubject [2, 1, 3, 1]) 1).heap
        (RemoveObserver doubling (registerAll doubling NewSubject [2, 1, 3, 1]) 1).subject.observers =
        (a ++ b).map some ∧
      (RemoveObserver doubling (registerAll doubling NewSubject [2, 1, 3, 1]) 1).subject.observers.len
        + 1 = (registerAll doubling NewSubject [2, 1, 3, 1]).subject.observers.len ∧
      a ++ b = [2, 1, 3, 1].eraseIdx a.length ∧
      List.count 1 (a ++ b) = List.count 1 b ∧
      List.count 1 (a ++ b) + 1 = List.count 1 [2, 1, 3, 1] ∧
      (a ++ b).filter (fun x => decide (x ≠ 1)) =
        [2, 1, 3, 1].filter (fun x => decide (x ≠ 1)) ∧
      (RemoveObserver doubling (registerAll doubling NewSubject [2, 1, 3, 1]) 1).subject.weather =
        (registerAll doubling NewSubject [2, 1, 3, 1]).subject.weather ∧
      (RemoveObserver doubling (registerAll doubling NewSubject [2, 1, 3, 1]) 1).log =
        (registerAll doubling NewSubject [2, 1, 3, 1]).log :=
  ⟨by unfold Holds; decide, by decide, by decide,
    C11_remove_deletes_first_occurrence doubling (registerAll doubling NewSubject [2, 1, 3, 1])
      [2, 1, 3, 1] 1 (by unfold Holds; decide) (by decide)⟩

end ObserverPattern

namespace SingletonPattern

/-- Once `once` has run its function, further calls change nothing and all
return the current `db`. -/
theorem calls_after_once (n : Nat) (p : Program) (hp : p.once = true) :
    calls n p = (p, List.replicate n p.db) := by
  induction n with
  | zero => rfl
  | succ n ih =>
    have hg : GetInstance p = (p, p.db) := by simp [GetInstance, onceDo, hp]
    simp [calls, hg, ih, List.replicate_succ]

/-- C6: for every number `n >= 1` of calls of `GetInstance` from program
start, every call returns the same pointer, which addresses a `Database`
whose `Connection` is `"test"`; the function passed to `once.Do` ran exactly
once (one line printed, one `Database` allocated), on the first call: the
state after `n` calls is the state after the first. -/
theorem C6_getInstance_constructs_once (n : Nat) (hn : 1 ≤ n) :
    (calls n start).2 = List.replicate n (some 0) ∧
    (calls n start).1.objects = [⟨"test"⟩] ∧
    (calls n start).1.stdout = ["Triggered only once..."] ∧
    (calls n start).1.db = some 0 ∧
    (calls n start).1 = (GetInstance start).1 := by
  obtain ⟨m, rfl⟩ : ∃ m, n = m + 1 := ⟨n - 1, by omega⟩
  have h := calls_after_once m (GetInstance start).1 rfl
  have hc : calls (m + 1) start =
      ((calls m (GetInstance start).1).1,
        (GetInstance start).2 :: (calls m (GetInstance start).1).2) := rfl
  rw [hc, h]
  refine ⟨?_, rfl, rfl, rfl, rfl⟩
  simp [List.replicate_succ, GetInstance, onceDo, construct, start]

/-- Witness of C6: the three calls of `main`. -/
theorem C6_witness :
    1 ≤ 3 ∧
    ((calls 3 start).2 = List.replicate 3 (some 0) ∧
    (calls 3 start).1.objects = [⟨"test"⟩] ∧
    (calls 3 start).1.stdout = ["Triggered only once..."] ∧
    (calls 3 start).1.db = some 0 ∧
    (calls 3 start).1 = (GetInstance start).1) :=
  ⟨by decide, C6_getInstance_constructs_once 3 (by decide)⟩

end SingletonPattern
